import Mathlib

/-!
Verification of the `FailPoint` fault-injection primitive
(`src/mongo/util/fail_point.h`).

The header provides the class layout, the inline fast paths
(`shouldFail`, `shouldFailOpenBlock`, `ScopedFailPoint::isActive`),
the bit-layout constants, and documentation.  The out-of-line bodies
(constructor, `setMode`, `slowShouldFailOpenBlock`,
`shouldFailCloseBlock`, `disableFailPoint`, the `ScopedFailPoint`
constructor and destructor) are not part of the given source; those
are modelled from the specification and are marked as such in their
doc comments.

Two embeddings are developed:
* a sequential model of `FailPoint` whose state word `fpInfo` packs the
  activation bit and the reference counter exactly as the header's
  constants prescribe, and
* a small-step concurrent model at the level of the specification's
  data model (activation flag / reference count as separate fields),
  used for the interleaving claims about `setMode` draining and the
  `nTimes` countdown.
-/

namespace Mongo

/-- Opaque payload document (`BSONObj`).  Its schema belongs to an external
collaborator; the model only needs construction, the empty default, and
decidable equality. -/
abbrev BSONObj := List (String × Int)

/-- `BSONObj()`: the empty document, the default payload of `setMode`. -/
def BSONObj.empty : BSONObj := []

/-- `enum Mode { off, alwaysOn, random, nTimes, numModes }` (header line 63). -/
inductive Mode
  | off
  | alwaysOn
  | random
  | nTimes
  | numModes
deriving DecidableEq

/-- `enum RetCode { fastOff = 0, slowOff, slowOn }` (header line 64). -/
inductive RetCode
  | fastOff
  | slowOff
  | slowOn
deriving DecidableEq

/-- `static const ValType ACTIVE_BIT = 1 << 31;` (header line 132). -/
def ACTIVE_BIT : Nat := 1 <<< 31

/-- `static const ValType REF_COUNTER_MASK = ~ACTIVE_BIT;` (header line 133);
the complement is taken at the 32-bit width of `ValType`. -/
def REF_COUNTER_MASK : Nat := (2 ^ 32 - 1) - ACTIVE_BIT

/-- State of a `FailPoint` (header lines 131–146): `_fpInfo` is the single
`AtomicUInt32` state word (bit 31: active flag, bits 0–30: reference counter),
`_mode`, `_timesOrPeriod` and `_data` are the configuration protected by
`_modMutex`.  The word is kept as a `Nat` below `2 ^ 32`; every update takes
the remainder mod `2 ^ 32` exactly where 32-bit wraparound occurs. -/
structure FailPoint where
  fpInfo : Nat
  mode : Mode
  timesOrPeriod : Int
  data : BSONObj
deriving DecidableEq

/-- The reference-count field of the state word: `_fpInfo & REF_COUNTER_MASK`. -/
def FailPoint.refCount (fp : FailPoint) : Nat :=
  fp.fpInfo &&& REF_COUNTER_MASK

/-- Modelled from the spec: `FailPoint::FailPoint()` — the constructor body is
not in the given header; §6 of the spec says a FailPoint is default-constructed
in the `off` mode with `refCount == 0` (and clean word, empty payload). -/
def FailPoint.init : FailPoint :=
  ⟨0, Mode.off, 0, BSONObj.empty⟩

/-- Modelled from the spec: `FailPoint::disableFailPoint()` — the body is not in
the given header; it "Disables this fail point", i.e. clears the activation
bit of the state word. -/
def FailPoint.disableFailPoint (fp : FailPoint) : FailPoint :=
  { fp with fpInfo := fp.fpInfo &&& REF_COUNTER_MASK }

/-- Modelled from the spec: `FailPoint::shouldFailCloseBlock()` — the body is
not in the given header; it "Decrements the reference counter" (32-bit
unsigned subtraction on the state word). -/
def FailPoint.shouldFailCloseBlock (fp : FailPoint) : FailPoint :=
  { fp with fpInfo := (fp.fpInfo + (2 ^ 32 - 1)) % 2 ^ 32 }

/-- Modelled from the spec: `FailPoint::slowShouldFailOpenBlock()` — the body is
not in the given header.  Per §4.1 it increments `refCount` and evaluates the
configured mode under the configuration lock: `alwaysOn` fires; `random` fires
according to the drawn sample (passed in as `draw`); `nTimes` fires while the
countdown is positive, atomically decrements it, and when the countdown
reaches zero disables the fail point in the same evaluation (per P3 an
already-exhausted countdown does not fire); `off` is never reached with the
activation bit set and does not fire. -/
def FailPoint.slowShouldFailOpenBlock (fp : FailPoint) (draw : Bool) :
    FailPoint × RetCode :=
  match fp.mode with
  | Mode.off => ({ fp with fpInfo := (fp.fpInfo + 1) % 2 ^ 32 }, RetCode.slowOff)
  | Mode.alwaysOn => ({ fp with fpInfo := (fp.fpInfo + 1) % 2 ^ 32 }, RetCode.slowOn)
  | Mode.random =>
      ({ fp with fpInfo := (fp.fpInfo + 1) % 2 ^ 32 },
       if draw then RetCode.slowOn else RetCode.slowOff)
  | Mode.nTimes =>
      if 0 < fp.timesOrPeriod then
        (if fp.timesOrPeriod - 1 = 0 then
           ({ fp with fpInfo := (fp.fpInfo + 1) % 2 ^ 32,
                      timesOrPeriod := fp.timesOrPeriod - 1 } : FailPoint).disableFailPoint
         else
           { fp with fpInfo := (fp.fpInfo + 1) % 2 ^ 32,
                     timesOrPeriod := fp.timesOrPeriod - 1 },
         RetCode.slowOn)
      else ({ fp with fpInfo := (fp.fpInfo + 1) % 2 ^ 32 }, RetCode.slowOff)
  | Mode.numModes => ({ fp with fpInfo := (fp.fpInfo + 1) % 2 ^ 32 }, RetCode.slowOff)

/-- `FailPoint::shouldFailOpenBlock()` (header lines 91–98): a single load of
the state word; if the activation bit is clear return `fastOff` at once,
otherwise take the slow path. -/
def FailPoint.shouldFailOpenBlock (fp : FailPoint) (draw : Bool) :
    FailPoint × RetCode :=
  if fp.fpInfo &&& ACTIVE_BIT = 0 then (fp, RetCode.fastOff)
  else fp.slowShouldFailOpenBlock draw

/-- `FailPoint::shouldFail()` (header lines 73–82): open; on `fastOff` return
false at once; otherwise close and return whether the open fired. -/
def FailPoint.shouldFail (fp : FailPoint) (draw : Bool) : FailPoint × Bool :=
  if (fp.shouldFailOpenBlock draw).2 = RetCode.fastOff then
    ((fp.shouldFailOpenBlock draw).1, false)
  else
    ((fp.shouldFailOpenBlock draw).1.shouldFailCloseBlock,
     decide ((fp.shouldFailOpenBlock draw).2 = RetCode.slowOn))

/-- `FailPoint::getData()` (header line 129): the stored payload document. -/
def FailPoint.getData (fp : FailPoint) : BSONObj :=
  fp.data

/-- Modelled from the spec: `FailPoint::setMode(mode, val, extra)` — the body is
not in the given header.  Per §4.1: (1) clear the activation flag; (2) wait
until `refCount` reaches zero — in this sequential model a nonzero count never
drains, which is returned as `none`; (3)–(4) write `mode`, `modeValue`,
`payload` under the lock; (5) if the new mode is not `off`, set the activation
flag. -/
def FailPoint.setMode (fp : FailPoint) (mode : Mode) (val : Int := 0)
    (extra : BSONObj := BSONObj.empty) : Option FailPoint :=
  if fp.disableFailPoint.fpInfo &&& REF_COUNTER_MASK ≠ 0 then none
  else some (if mode = Mode.off then
    { fp.disableFailPoint with mode := mode, timesOrPeriod := val, data := extra }
  else
    { fp.disableFailPoint with
        fpInfo := fp.disableFailPoint.fpInfo ||| ACTIVE_BIT,
        mode := mode, timesOrPeriod := val, data := extra })

/-- Sequential iteration of `shouldFail`: one call per entry of `draws`,
threading the state and collecting the boolean results in order. -/
def FailPoint.runChecks (fp : FailPoint) : List Bool → FailPoint × List Bool
  | [] => (fp, [])
  | draw :: rest =>
      let r := fp.shouldFail draw
      let t := r.1.runChecks rest
      (t.1, r.2 :: t.2)

/-- State of a `ScopedFailPoint` (header lines 163–187): the pointee fail point
together with the `_once` and `_shouldClose` flags. -/
structure ScopedFailPoint where
  failPoint : FailPoint
  once : Bool
  shouldClose : Bool
deriving DecidableEq

/-- Modelled from the spec: the `ScopedFailPoint(FailPoint*)` constructor — the
body is not in the given header; it stores the pointer and starts with
`_once` and `_shouldClose` false (no call made yet, no close owed). -/
def ScopedFailPoint.init (fp : FailPoint) : ScopedFailPoint :=
  ⟨fp, false, false⟩

/-- `ScopedFailPoint::isActive()` (header lines 171–181): after the first call
return false unconditionally; on the first call perform the open check,
remember whether a close is owed, and return whether it fired. -/
def ScopedFailPoint.isActive (s : ScopedFailPoint) (draw : Bool) :
    ScopedFailPoint × Bool :=
  if s.once then (s, false)
  else
    (⟨(s.failPoint.shouldFailOpenBlock draw).1, true,
      decide ((s.failPoint.shouldFailOpenBlock draw).2 ≠ RetCode.fastOff)⟩,
     decide ((s.failPoint.shouldFailOpenBlock draw).2 = RetCode.slowOn))

/-- Modelled from the spec: the `~ScopedFailPoint()` destructor — the body is
not in the given header; per §4.2, on destruction the close operation is
invoked exactly once if a close is owed, and not at all otherwise. -/
def ScopedFailPoint.destruct (s : ScopedFailPoint) : FailPoint :=
  if s.shouldClose then s.failPoint.shouldFailCloseBlock else s.failPoint

/-- Iterated `isActive` calls on one `ScopedFailPoint` instance, collecting the
results in order. -/
def ScopedFailPoint.runIsActive (s : ScopedFailPoint) :
    List Bool → ScopedFailPoint × List Bool
  | [] => (s, [])
  | draw :: rest =>
      let r := s.isActive draw
      let t := r.1.runIsActive rest
      (t.1, r.2 :: t.2)

/-! ### Bit-layout arithmetic -/

theorem ACTIVE_BIT_eq : ACTIVE_BIT = 2 ^ 31 := by decide

theorem REF_COUNTER_MASK_eq : REF_COUNTER_MASK = 2 ^ 31 - 1 := by decide

theorem land_mask (x : Nat) : x &&& REF_COUNTER_MASK = x % 2 ^ 31 := by
  rw [REF_COUNTER_MASK_eq]
  exact Nat.and_pow_two_sub_one_eq_mod x 31

theorem land_active (x : Nat) : x &&& ACTIVE_BIT = 2 ^ 31 * (x / 2 ^ 31 % 2) := by
  rw [ACTIVE_BIT_eq, Nat.and_two_pow, Nat.testBit_to_div_mod]
  rcases Nat.mod_two_eq_zero_or_one (x / 2 ^ 31) with h | h <;> rw [h] <;> simp

theorem land_active_eq_zero_iff (x : Nat) :
    x &&& ACTIVE_BIT = 0 ↔ x / 2 ^ 31 % 2 = 0 := by
  rw [land_active]
  omega

theorem refCount_eq_mod (fp : FailPoint) : fp.refCount = fp.fpInfo % 2 ^ 31 := by
  unfold FailPoint.refCount
  exact land_mask _

/-! ### Unfolding equations for the sequential model -/

theorem runChecks_cons (fp : FailPoint) (d : Bool) (rest : List Bool) :
    fp.runChecks (d :: rest) =
      (((fp.shouldFail d).1.runChecks rest).1,
       (fp.shouldFail d).2 :: ((fp.shouldFail d).1.runChecks rest).2) := rfl

theorem runIsActive_cons (s : ScopedFailPoint) (d : Bool) (rest : List Bool) :
    s.runIsActive (d :: rest) =
      (((s.isActive d).1.runIsActive rest).1,
       (s.isActive d).2 :: ((s.isActive d).1.runIsActive rest).2) := rfl

theorem slow_eq_off (fp : FailPoint) (draw : Bool) (h : fp.mode = Mode.off) :
    fp.slowShouldFailOpenBlock draw =
      ({ fp with fpInfo := (fp.fpInfo + 1) % 2 ^ 32 }, RetCode.slowOff) := by
  unfold FailPoint.slowShouldFailOpenBlock
  rw [h]

theorem slow_eq_numModes (fp : FailPoint) (draw : Bool) (h : fp.mode = Mode.numModes) :
    fp.slowShouldFailOpenBlock draw =
      ({ fp with fpInfo := (fp.fpInfo + 1) % 2 ^ 32 }, RetCode.slowOff) := by
  unfold FailPoint.slowShouldFailOpenBlock
  rw [h]

theorem slow_eq_alwaysOn (fp : FailPoint) (draw : Bool) (h : fp.mode = Mode.alwaysOn) :
    fp.slowShouldFailOpenBlock draw =
      ({ fp with fpInfo := (fp.fpInfo + 1) % 2 ^ 32 }, RetCode.slowOn) := by
  unfold FailPoint.slowShouldFailOpenBlock
  rw [h]

theorem slow_eq_random (fp : FailPoint) (draw : Bool) (h : fp.mode = Mode.random) :
    fp.slowShouldFailOpenBlock draw =
      ({ fp with fpInfo := (fp.fpInfo + 1) % 2 ^ 32 },
       if draw then RetCode.slowOn else RetCode.slowOff) := by
  unfold FailPoint.slowShouldFailOpenBlock
  rw [h]

theorem slow_eq_nTimes_exhausted (fp : FailPoint) (draw : Bool)
    (h : fp.mode = Mode.nTimes) (hv : ¬ 0 < fp.timesOrPeriod) :
    fp.slowShouldFailOpenBlock draw =
      ({ fp with fpInfo := (fp.fpInfo + 1) % 2 ^ 32 }, RetCode.slowOff) := by
  unfold FailPoint.slowShouldFailOpenBlock
  rw [h]
  rw [if_neg hv]

theorem slow_eq_nTimes_last (fp : FailPoint) (draw : Bool)
    (h : fp.mode = Mode.nTimes) (hv : fp.timesOrPeriod = 1) :
    fp.slowShouldFailOpenBlock draw =
      ({ fp with fpInfo := ((fp.fpInfo + 1) % 2 ^ 32) &&& REF_COUNTER_MASK,
                 timesOrPeriod := 0 }, RetCode.slowOn) := by
  unfold FailPoint.slowShouldFailOpenBlock
  rw [h]
  rw [if_pos (by omega : (0 : Int) < fp.timesOrPeriod)]
  rw [if_pos (by omega : fp.timesOrPeriod - 1 = 0)]
  rw [hv]
  rfl

theorem slow_eq_nTimes_more (fp : FailPoint) (draw : Bool)
    (h : fp.mode = Mode.nTimes) (hv : 1 < fp.timesOrPeriod) :
    fp.slowShouldFailOpenBlock draw =
      ({ fp with fpInfo := (fp.fpInfo + 1) % 2 ^ 32,
                 timesOrPeriod := fp.timesOrPeriod - 1 }, RetCode.slowOn) := by
  unfold FailPoint.slowShouldFailOpenBlock
  rw [h]
  rw [if_pos (by omega : (0 : Int) < fp.timesOrPeriod)]
  rw [if_neg (by omega : ¬ fp.timesOrPeriod - 1 = 0)]

/-! ### Derived facts about the sequential model -/

theorem open_eq_of_inactive (fp : FailPoint) (draw : Bool)
    (h : fp.fpInfo &&& ACTIVE_BIT = 0) :
    fp.shouldFailOpenBlock draw = (fp, RetCode.fastOff) := by
  unfold FailPoint.shouldFailOpenBlock
  rw [if_pos h]

theorem open_eq_of_active (fp : FailPoint) (draw : Bool)
    (h : fp.fpInfo &&& ACTIVE_BIT ≠ 0) :
    fp.shouldFailOpenBlock draw = fp.slowShouldFailOpenBlock draw := by
  unfold FailPoint.shouldFailOpenBlock
  rw [if_neg h]

theorem slow_props (fp : FailPoint) (draw : Bool) :
    ((fp.slowShouldFailOpenBlock draw).1.fpInfo = (fp.fpInfo + 1) % 2 ^ 32 ∨
     (fp.slowShouldFailOpenBlock draw).1.fpInfo =
       ((fp.fpInfo + 1) % 2 ^ 32) &&& REF_COUNTER_MASK) ∧
    (fp.slowShouldFailOpenBlock draw).1.mode = fp.mode ∧
    (fp.slowShouldFailOpenBlock draw).1.data = fp.data ∧
    (fp.slowShouldFailOpenBlock draw).2 ≠ RetCode.fastOff := by
  cases h : fp.mode
  case off =>
    rw [slow_eq_off fp draw h, h]
    exact ⟨Or.inl rfl, rfl, rfl, by simp⟩
  case alwaysOn =>
    rw [slow_eq_alwaysOn fp draw h, h]
    exact ⟨Or.inl rfl, rfl, rfl, by simp⟩
  case random =>
    rw [slow_eq_random fp draw h, h]
    exact ⟨Or.inl rfl, rfl, rfl, by cases draw <;> simp⟩
  case nTimes =>
    by_cases hv : 0 < fp.timesOrPeriod
    · by_cases h1 : fp.timesOrPeriod = 1
      · rw [slow_eq_nTimes_last fp draw h h1, h]
        exact ⟨Or.inr rfl, rfl, rfl, by simp⟩
      · rw [slow_eq_nTimes_more fp draw h (by omega), h]
        exact ⟨Or.inl rfl, rfl, rfl, by simp⟩
    · rw [slow_eq_nTimes_exhausted fp draw h hv, h]
      exact ⟨Or.inl rfl, rfl, rfl, by simp⟩
  case numModes =>
    rw [slow_eq_numModes fp draw h, h]
    exact ⟨Or.inl rfl, rfl, rfl, by simp⟩

theorem slow_fpInfo_cases (fp : FailPoint) (draw : Bool) :
    (fp.slowShouldFailOpenBlock draw).1.fpInfo = (fp.fpInfo + 1) % 2 ^ 32 ∨
    (fp.slowShouldFailOpenBlock draw).1.fpInfo =
      ((fp.fpInfo + 1) % 2 ^ 32) &&& REF_COUNTER_MASK :=
  (slow_props fp draw).1

theorem slow_mode (fp : FailPoint) (draw : Bool) :
    (fp.slowShouldFailOpenBlock draw).1.mode = fp.mode :=
  (slow_props fp draw).2.1

theorem slow_data (fp : FailPoint) (draw : Bool) :
    (fp.slowShouldFailOpenBlock draw).1.data = fp.data :=
  (slow_props fp draw).2.2.1

theorem slow_ne_fastOff (fp : FailPoint) (draw : Bool) :
    (fp.slowShouldFailOpenBlock draw).2 ≠ RetCode.fastOff :=
  (slow_props fp draw).2.2.2

theorem close_refCount (fp : FailPoint) :
    fp.shouldFailCloseBlock.refCount = (fp.refCount + (2 ^ 31 - 1)) % 2 ^ 31 := by
  rw [refCount_eq_mod, refCount_eq_mod]
  unfold FailPoint.shouldFailCloseBlock
  simp only
  omega

theorem slow_then_close_refCount (fp : FailPoint) (draw : Bool) :
    ((fp.slowShouldFailOpenBlock draw).1.shouldFailCloseBlock).refCount = fp.refCount := by
  rcases slow_fpInfo_cases fp draw with h | h <;>
    · rw [refCount_eq_mod, refCount_eq_mod]
      unfold FailPoint.shouldFailCloseBlock
      simp only [h]
      first
        | omega
        | (rw [land_mask]; omega)

theorem shouldFail_eq_of_inactive (fp : FailPoint) (draw : Bool)
    (h : fp.fpInfo &&& ACTIVE_BIT = 0) :
    fp.shouldFail draw = (fp, false) := by
  unfold FailPoint.shouldFail
  rw [open_eq_of_inactive fp draw h]
  rfl

theorem shouldFail_eq_of_active (fp : FailPoint) (draw : Bool)
    (h : fp.fpInfo &&& ACTIVE_BIT ≠ 0) :
    fp.shouldFail draw =
      ((fp.slowShouldFailOpenBlock draw).1.shouldFailCloseBlock,
       decide ((fp.slowShouldFailOpenBlock draw).2 = RetCode.slowOn)) := by
  unfold FailPoint.shouldFail
  rw [open_eq_of_active fp draw h]
  rw [if_neg (slow_ne_fastOff fp draw)]

theorem close_data (fp : FailPoint) : fp.shouldFailCloseBlock.data = fp.data := by
  unfold FailPoint.shouldFailCloseBlock
  rfl

theorem close_mode (fp : FailPoint) : fp.shouldFailCloseBlock.mode = fp.mode := by
  unfold FailPoint.shouldFailCloseBlock
  rfl

theorem shouldFail_refCount (fp : FailPoint) (draw : Bool) :
    (fp.shouldFail draw).1.refCount = fp.refCount := by
  by_cases h : fp.fpInfo &&& ACTIVE_BIT = 0
  · rw [shouldFail_eq_of_inactive fp draw h]
  · rw [shouldFail_eq_of_active fp draw h]
    exact slow_then_close_refCount fp draw

theorem shouldFail_data (fp : FailPoint) (draw : Bool) :
    (fp.shouldFail draw).1.data = fp.data := by
  by_cases h : fp.fpInfo &&& ACTIVE_BIT = 0
  · rw [shouldFail_eq_of_inactive fp draw h]
  · rw [shouldFail_eq_of_active fp draw h]
    exact (close_data _).trans (slow_data fp draw)

theorem shouldFail_mode (fp : FailPoint) (draw : Bool) :
    (fp.shouldFail draw).1.mode = fp.mode := by
  by_cases h : fp.fpInfo &&& ACTIVE_BIT = 0
  · rw [shouldFail_eq_of_inactive fp draw h]
  · rw [shouldFail_eq_of_active fp draw h]
    exact (close_mode _).trans (slow_mode fp draw)

theorem runChecks_data (fp : FailPoint) (draws : List Bool) :
    (fp.runChecks draws).1.data = fp.data := by
  induction draws generalizing fp with
  | nil => rfl
  | cons d rest ih =>
      rw [runChecks_cons]
      exact (ih (fp.shouldFail d).1).trans (shouldFail_data fp d)

theorem runChecks_of_inactive (fp : FailPoint) (draws : List Bool)
    (h : fp.fpInfo &&& ACTIVE_BIT = 0) :
    fp.runChecks draws = (fp, List.replicate draws.length false) := by
  induction draws with
  | nil => rfl
  | cons d rest ih =>
      rw [runChecks_cons, shouldFail_eq_of_inactive fp d h]
      simp only [ih, List.length_cons, List.replicate_succ]

/-! ### Sequential behaviour of the nTimes mode -/

theorem nTimes_check_zero (d : Bool) :
    (FailPoint.mk ACTIVE_BIT Mode.nTimes 0 BSONObj.empty).shouldFail d =
      (FailPoint.mk ACTIVE_BIT Mode.nTimes 0 BSONObj.empty, false) := by
  cases d <;> decide

theorem nTimes_check_one (d : Bool) :
    (FailPoint.mk ACTIVE_BIT Mode.nTimes 1 BSONObj.empty).shouldFail d =
      (FailPoint.mk 0 Mode.nTimes 0 BSONObj.empty, true) := by
  cases d <;> decide

theorem nTimes_check_more (d : Bool) (t : Int) (h : 1 < t) :
    (FailPoint.mk ACTIVE_BIT Mode.nTimes t BSONObj.empty).shouldFail d =
      (FailPoint.mk ACTIVE_BIT Mode.nTimes (t - 1) BSONObj.empty, true) := by
  have hA : (FailPoint.mk ACTIVE_BIT Mode.nTimes t BSONObj.empty).fpInfo &&& ACTIVE_BIT ≠ 0 := by
    show ACTIVE_BIT &&& ACTIVE_BIT ≠ 0
    decide
  have h1 := shouldFail_eq_of_active (FailPoint.mk ACTIVE_BIT Mode.nTimes t BSONObj.empty) d hA
  rw [slow_eq_nTimes_more (FailPoint.mk ACTIVE_BIT Mode.nTimes t BSONObj.empty) d rfl h] at h1
  have hw : ((ACTIVE_BIT + 1) % 2 ^ 32 + (2 ^ 32 - 1)) % 2 ^ 32 = ACTIVE_BIT := by decide
  have h2 := congrArg (fun x => (FailPoint.mk x Mode.nTimes (t - 1) BSONObj.empty, true)) hw
  exact h1.trans h2

theorem runChecks_nTimes (N : Nat) (draws : List Bool) :
    ((FailPoint.mk ACTIVE_BIT Mode.nTimes (N : Int) BSONObj.empty).runChecks draws).2 =
      List.replicate (min draws.length N) true ++
        List.replicate (draws.length - N) false := by
  induction draws generalizing N with
  | nil => simp [FailPoint.runChecks]
  | cons d rest ih =>
      rw [runChecks_cons]
      by_cases hN0 : N = 0
      · subst hN0
        rw [Nat.cast_zero, nTimes_check_zero d]
        simp only
        have ih' := ih 0
        rw [Nat.cast_zero] at ih'
        rw [ih']
        simp [List.replicate_succ]
      · by_cases hN1 : N = 1
        · subst hN1
          rw [Nat.cast_one, nTimes_check_one d]
          simp only
          rw [runChecks_of_inactive _ rest (by decide)]
          simp only
          have h1 : min (rest.length + 1) 1 = 1 := by omega
          have h2 : rest.length + 1 - 1 = rest.length := by omega
          rw [List.length_cons, h1, h2]
          rfl
        · have hgt : (1 : Int) < (N : Int) := by
            have : 1 < N := by omega
            exact_mod_cast this
          rw [nTimes_check_more d _ hgt]
          have hc : ((N : Int) - 1) = ((N - 1 : Nat) : Int) := by
            have : ((N - 1 : Nat) : Int) = (N : Int) - 1 := by
              push_cast [Nat.cast_sub (by omega : 1 ≤ N)]
              ring
            omega
          rw [hc]
          simp only
          rw [ih (N - 1)]
          have h1 : min (rest.length + 1) N = min rest.length (N - 1) + 1 := by omega
          have h2 : rest.length + 1 - N = rest.length - (N - 1) := by omega
          rw [List.length_cons, h1, h2, List.replicate_succ, List.cons_append]

/-! ### setMode and ScopedFailPoint facts -/

theorem disable_fpInfo (fp : FailPoint) :
    fp.disableFailPoint.fpInfo = fp.fpInfo &&& REF_COUNTER_MASK := by
  unfold FailPoint.disableFailPoint
  rfl

theorem setMode_eq_some (fp : FailPoint) (m : Mode) (v : Int) (p : BSONObj)
    (fp' : FailPoint) (h : fp.setMode m v p = some fp') :
    fp.refCount = 0 ∧
    fp' = FailPoint.mk (if m = Mode.off then 0 else ACTIVE_BIT) m v p := by
  have hz : fp.disableFailPoint.fpInfo &&& REF_COUNTER_MASK = 0 := by
    by_contra hc
    unfold FailPoint.setMode at h
    rw [if_pos hc] at h
    exact Option.noConfusion h
  rw [disable_fpInfo, land_mask, land_mask] at hz
  have hy : fp.fpInfo &&& REF_COUNTER_MASK = 0 := by
    rw [land_mask]
    omega
  have hrc : fp.refCount = 0 := hy
  refine ⟨hrc, ?_⟩
  unfold FailPoint.setMode at h
  rw [if_neg (by
    rw [disable_fpInfo, land_mask, land_mask]
    omega)] at h
  have h' := Option.some.inj h
  by_cases hm : m = Mode.off
  · rw [if_pos hm] at h'
    rw [if_pos hm]
    refine h'.symm.trans ?_
    exact congrArg (fun x => FailPoint.mk x m v p) ((disable_fpInfo fp).trans hy)
  · rw [if_neg hm] at h'
    rw [if_neg hm]
    refine h'.symm.trans ?_
    have hx : fp.disableFailPoint.fpInfo ||| ACTIVE_BIT = ACTIVE_BIT := by
      rw [disable_fpInfo, hy]
      decide
    exact congrArg (fun x => FailPoint.mk x m v p) hx

theorem setMode_data (fp : FailPoint) (m : Mode) (v : Int) (p : BSONObj)
    (fp' : FailPoint) (h : fp.setMode m v p = some fp') : fp'.data = p := by
  rw [(setMode_eq_some fp m v p fp' h).2]

theorem isActive_of_once (s : ScopedFailPoint) (d : Bool) (h : s.once = true) :
    s.isActive d = (s, false) := by
  unfold ScopedFailPoint.isActive
  rw [if_pos h]

theorem isActive_init (fp : FailPoint) (d : Bool) :
    (ScopedFailPoint.init fp).isActive d =
      (⟨(fp.shouldFailOpenBlock d).1, true,
        decide ((fp.shouldFailOpenBlock d).2 ≠ RetCode.fastOff)⟩,
       decide ((fp.shouldFailOpenBlock d).2 = RetCode.slowOn)) := by
  unfold ScopedFailPoint.isActive ScopedFailPoint.init
  rw [if_neg (by simp)]

theorem runIsActive_of_once (s : ScopedFailPoint) (draws : List Bool)
    (h : s.once = true) :
    s.runIsActive draws = (s, List.replicate draws.length false) := by
  induction draws with
  | nil => rfl
  | cons d rest ih =>
      rw [runIsActive_cons, isActive_of_once s d h]
      simp only [ih, List.length_cons, List.replicate_succ]

theorem runIsActive_init_cons (fp : FailPoint) (d : Bool) (rest : List Bool) :
    (ScopedFailPoint.init fp).runIsActive (d :: rest) =
      (⟨(fp.shouldFailOpenBlock d).1, true,
        decide ((fp.shouldFailOpenBlock d).2 ≠ RetCode.fastOff)⟩,
       decide ((fp.shouldFailOpenBlock d).2 = RetCode.slowOn) ::
         List.replicate rest.length false) := by
  rw [runIsActive_cons, isActive_init]
  rw [runIsActive_of_once _ rest rfl]

theorem open_fastOff_state (fp : FailPoint) (d : Bool)
    (h : (fp.shouldFailOpenBlock d).2 = RetCode.fastOff) :
    (fp.shouldFailOpenBlock d).1 = fp := by
  by_cases hb : fp.fpInfo &&& ACTIVE_BIT = 0
  · rw [open_eq_of_inactive fp d hb]
  · rw [open_eq_of_active fp d hb] at h
    exact absurd h (slow_ne_fastOff fp d)

theorem open_ne_fastOff_active (fp : FailPoint) (d : Bool)
    (h : (fp.shouldFailOpenBlock d).2 ≠ RetCode.fastOff) :
    fp.fpInfo &&& ACTIVE_BIT ≠ 0 := by
  intro hb
  rw [open_eq_of_inactive fp d hb] at h
  exact h rfl

/-! ### Concurrent small-step model

Modelled from the spec (§3 data model, §4.1 algorithm, §5 concurrency model):
shared state at the level of the specification's conceptual fields
(`activationFlag`, `refCount`, `mode`, `modeValue`, `payload`), with each
checker thread decomposed into its atomic actions: the fast-path load
(which, when the flag is observed set, transfers to the slow path and
increments `refCount`), the mode evaluation under the configuration lock,
and the close (decrement). -/

/-- Modelled from the spec: the §3 data model of a fail point, the conceptual
fields that the implementation packs into the single state word plus the
lock-protected configuration. -/
structure FpState where
  activationFlag : Bool
  refCount : Nat
  mode : Mode
  modeValue : Int
  payload : BSONObj
deriving DecidableEq

/-- Where a checker thread stands inside one check: not yet started, past a
non-`fastOff` open (holding a reference), past the slow-path evaluation with
its result, or finished with its overall result. -/
inductive Phase where
  | start
  | opened
  | evaluated (r : RetCode)
  | finished (r : RetCode)
deriving DecidableEq

/-- A checker thread: its phase plus the random sample it would use were the
fail point in `random` mode. -/
structure Thread where
  phase : Phase
  draw : Bool
deriving DecidableEq

/-- Modelled from the spec: the slow-path mode evaluation performed atomically
under the configuration lock (§4.1 mode semantics): `alwaysOn` fires; `random`
fires according to the drawn sample; `nTimes` fires while the countdown is
positive, decrements it, and clears the activation flag in the same evaluation
when the countdown reaches zero; `off` does not fire. -/
def FpState.slowEval (fp : FpState) (draw : Bool) : FpState × RetCode :=
  match fp.mode with
  | Mode.off => (fp, RetCode.slowOff)
  | Mode.alwaysOn => (fp, RetCode.slowOn)
  | Mode.random => (fp, if draw then RetCode.slowOn else RetCode.slowOff)
  | Mode.nTimes =>
      if 0 < fp.modeValue then
        ({ fp with modeValue := fp.modeValue - 1,
                   activationFlag :=
                     if fp.modeValue - 1 = 0 then false else fp.activationFlag },
         RetCode.slowOn)
      else (fp, RetCode.slowOff)
  | Mode.numModes => (fp, RetCode.slowOff)

/-- Modelled from the spec: one checker thread's next atomic action (§4.1): at
`start`, the single atomic load — flag clear finishes with `fastOff` and no
other effect, flag set increments `refCount` and enters the slow path; at
`opened`, the locked mode evaluation; at `evaluated`, the close (decrement);
`finished` threads take no further action. -/
def checkerStep (fp : FpState) (t : Thread) : FpState × Thread :=
  match t.phase with
  | Phase.start =>
      if fp.activationFlag then
        ({ fp with refCount := fp.refCount + 1 }, { t with phase := Phase.opened })
      else (fp, { t with phase := Phase.finished RetCode.fastOff })
  | Phase.opened =>
      ((fp.slowEval t.draw).1, { t with phase := Phase.evaluated (fp.slowEval t.draw).2 })
  | Phase.evaluated r =>
      ({ fp with refCount := fp.refCount - 1 }, { t with phase := Phase.finished r })
  | Phase.finished _ => (fp, t)

/-- A system of checker threads sharing one fail point (no reconfiguration in
flight): used for the `nTimes` interleaving claim. -/
structure CheckSys where
  fp : FpState
  threads : List Thread
deriving DecidableEq

/-- Scheduler: let thread `i` perform its next atomic action. -/
def CheckSys.step (s : CheckSys) (i : Nat) : CheckSys :=
  match s.threads[i]? with
  | none => s
  | some t => ⟨(checkerStep s.fp t).1, s.threads.set i (checkerStep s.fp t).2⟩

/-- Run a whole schedule (an arbitrary interleaving of the threads' actions). -/
def CheckSys.run (s : CheckSys) : List Nat → CheckSys
  | [] => s
  | i :: sch => (s.step i).run sch

/-- The thread's check fired: it reached its slow-path evaluation and that
evaluation returned `slowOn` (whether or not it has closed yet). -/
def Thread.fired (t : Thread) : Bool :=
  match t.phase with
  | Phase.evaluated r => decide (r = RetCode.slowOn)
  | Phase.finished r => decide (r = RetCode.slowOn)
  | _ => false

/-- The thread's check settled without firing. -/
def Thread.settledOff (t : Thread) : Bool :=
  match t.phase with
  | Phase.evaluated r => decide (r ≠ RetCode.slowOn)
  | Phase.finished r => decide (r ≠ RetCode.slowOn)
  | _ => false

/-- The thread has completed its whole check, close included. -/
def Thread.isDone (t : Thread) : Bool :=
  match t.phase with
  | Phase.finished _ => true
  | _ => false

def firedCount (s : CheckSys) : Nat := s.threads.countP Thread.fired

def offCount (s : CheckSys) : Nat := s.threads.countP Thread.settledOff

def CheckSys.allFinished (s : CheckSys) : Prop := ∀ t ∈ s.threads, t.isDone = true

instance decAllFinished (s : CheckSys) : Decidable s.allFinished :=
  inferInstanceAs (Decidable (∀ t ∈ s.threads, t.isDone = true))

/-- Modelled from the spec: the fail-point state right after a quiescent
`setMode(mode, val, payload)`: configuration written, no references held, and
the activation flag set exactly when the new mode is not `off` (§4.1 step 5). -/
def FpState.afterSetMode (m : Mode) (v : Int) (p : BSONObj) : FpState :=
  ⟨decide (m ≠ Mode.off), 0, m, v, p⟩

/-- `k` threads, each about to run one full check, against a fail point freshly
configured as `nTimes N`. -/
def CheckSys.initNTimes (N : Nat) (draws : List Bool) : CheckSys :=
  ⟨FpState.afterSetMode Mode.nTimes (N : Int) BSONObj.empty,
   draws.map fun d => ⟨Phase.start, d⟩⟩

/-- Invariant tying the remaining countdown, the activation flag and the number
of fired checks together for a fail point in `nTimes` mode. -/
def NTimesInv (N : Nat) (s : CheckSys) : Prop :=
  s.fp.mode = Mode.nTimes ∧
  ((s.fp.activationFlag = true ∧
      s.fp.modeValue = (N : Int) - (firedCount s : Int) ∧
      (0 < N → offCount s = 0 ∧ firedCount s < N) ∧
      (N = 0 → firedCount s = 0))
   ∨ (s.fp.activationFlag = false ∧ firedCount s = N ∧ 0 < N ∧
      s.fp.modeValue = 0))

/-! ### Counting helpers -/

theorem countP_set_thread (p : Thread → Bool) (l : List Thread) (i : Nat) (t b : Thread)
    (h : l[i]? = some t) :
    (l.set i b).countP p + (if p t then 1 else 0) =
      l.countP p + (if p b then 1 else 0) := by
  induction l generalizing i with
  | nil => simp at h
  | cons a as ih =>
      cases i with
      | zero =>
          rw [List.getElem?_cons_zero] at h
          have ha := Option.some.inj h
          subst ha
          rw [List.set_cons_zero, List.countP_cons, List.countP_cons]
          omega
      | succ j =>
          rw [List.getElem?_cons_succ] at h
          rw [List.set_cons_succ, List.countP_cons, List.countP_cons]
          have := ih j h
          omega

theorem countP_pos_of_get (p : Thread → Bool) (l : List Thread) (i : Nat) (t : Thread)
    (h : l[i]? = some t) (hp : p t = true) : 0 < l.countP p := by
  rw [List.countP_pos_iff]
  exact ⟨t, List.getElem?_mem h, hp⟩

theorem slowEval_nTimes_pos (fp : FpState) (d : Bool) (hm : fp.mode = Mode.nTimes)
    (hv : 0 < fp.modeValue) :
    fp.slowEval d =
      ({ fp with modeValue := fp.modeValue - 1,
                 activationFlag :=
                   if fp.modeValue - 1 = 0 then false else fp.activationFlag },
       RetCode.slowOn) := by
  unfold FpState.slowEval
  rw [hm]
  rw [if_pos hv]

theorem slowEval_nTimes_nonpos (fp : FpState) (d : Bool) (hm : fp.mode = Mode.nTimes)
    (hv : ¬ 0 < fp.modeValue) :
    fp.slowEval d = (fp, RetCode.slowOff) := by
  unfold FpState.slowEval
  rw [hm]
  rw [if_neg hv]

/-! ### Preservation of the nTimes invariant -/

theorem NTimesInv_step (N : Nat) (s : CheckSys) (i : Nat) (h : NTimesInv N s) :
    NTimesInv N (s.step i) := by
  obtain ⟨hmode, hcase⟩ := h
  cases hg : s.threads[i]? with
  | none =>
      have hstep : s.step i = s := by
        unfold CheckSys.step
        rw [hg]
      rw [hstep]
      exact ⟨hmode, hcase⟩
  | some t =>
      have hstep : s.step i =
          ⟨(checkerStep s.fp t).1, s.threads.set i (checkerStep s.fp t).2⟩ := by
        unfold CheckSys.step
        rw [hg]
      rw [hstep]
      unfold checkerStep
      cases hp : t.phase with
      | start =>
          simp only
          by_cases hf : s.fp.activationFlag = true
          · rw [if_pos hf]
            have e := countP_set_thread Thread.fired s.threads i t
              ⟨Phase.opened, t.draw⟩ hg
            have e2 := countP_set_thread Thread.settledOff s.threads i t
              ⟨Phase.opened, t.draw⟩ hg
            simp [Thread.fired, Thread.settledOff, hp] at e e2
            unfold NTimesInv firedCount offCount at *
            simp only at e e2 ⊢
            refine ⟨hmode, ?_⟩
            rcases hcase with ⟨h1, h2, h3, h4⟩ | ⟨h1, h2, h3, h4⟩
            · exact Or.inl ⟨h1, by omega, by omega, by omega⟩
            · exact Or.inr ⟨h1, by omega, h3, h4⟩
          · rw [if_neg hf]
            have e := countP_set_thread Thread.fired s.threads i t
              ⟨Phase.finished RetCode.fastOff, t.draw⟩ hg
            have e2 := countP_set_thread Thread.settledOff s.threads i t
              ⟨Phase.finished RetCode.fastOff, t.draw⟩ hg
            simp [Thread.fired, Thread.settledOff, hp] at e e2
            unfold NTimesInv firedCount offCount at *
            simp only at e e2 ⊢
            refine ⟨hmode, ?_⟩
            rcases hcase with ⟨h1, h2, h3, h4⟩ | ⟨h1, h2, h3, h4⟩
            · exact absurd h1 hf
            · exact Or.inr ⟨h1, by omega, h3, h4⟩
      | opened =>
          simp only
          rcases hcase with ⟨h1, h2, h3, h4⟩ | ⟨h1, h2, h3, h4⟩
          · by_cases hN : N = 0
            · have hfz : firedCount s = 0 := h4 hN
              have hmv : s.fp.modeValue = 0 := by
                rw [h2, hfz, hN]
                simp
              have hnv : ¬ 0 < s.fp.modeValue := by omega
              rw [slowEval_nTimes_nonpos s.fp t.draw hmode hnv]
              have e := countP_set_thread Thread.fired s.threads i t
                ⟨Phase.evaluated RetCode.slowOff, t.draw⟩ hg
              have e2 := countP_set_thread Thread.settledOff s.threads i t
                ⟨Phase.evaluated RetCode.slowOff, t.draw⟩ hg
              simp [Thread.fired, Thread.settledOff, hp] at e e2
              unfold NTimesInv firedCount offCount at *
              simp only at e e2 ⊢
              refine ⟨hmode, Or.inl ⟨h1, by omega, by omega, by omega⟩⟩
            · have hpos : 0 < N := by omega
              obtain ⟨hoff, hlt⟩ := h3 hpos
              have hv : 0 < s.fp.modeValue := by
                rw [h2]
                omega
              rw [slowEval_nTimes_pos s.fp t.draw hmode hv]
              have e := countP_set_thread Thread.fired s.threads i t
                ⟨Phase.evaluated RetCode.slowOn, t.draw⟩ hg
              have e2 := countP_set_thread Thread.settledOff s.threads i t
                ⟨Phase.evaluated RetCode.slowOn, t.draw⟩ hg
              simp [Thread.fired, Thread.settledOff, hp] at e e2
              unfold NTimesInv firedCount offCount at *
              simp only at e e2 ⊢
              refine ⟨hmode, ?_⟩
              by_cases hz : s.fp.modeValue - 1 = 0
              · rw [if_pos hz]
                refine Or.inr ⟨rfl, by omega, hpos, by omega⟩
              · rw [if_neg hz]
                refine Or.inl ⟨h1, by omega, fun _ => ⟨by omega, by omega⟩, by omega⟩
          · have hnv : ¬ 0 < s.fp.modeValue := by omega
            rw [slowEval_nTimes_nonpos s.fp t.draw hmode hnv]
            have e := countP_set_thread Thread.fired s.threads i t
              ⟨Phase.evaluated RetCode.slowOff, t.draw⟩ hg
            have e2 := countP_set_thread Thread.settledOff s.threads i t
              ⟨Phase.evaluated RetCode.slowOff, t.draw⟩ hg
            simp [Thread.fired, Thread.settledOff, hp] at e e2
            unfold NTimesInv firedCount offCount at *
            simp only at e e2 ⊢
            exact ⟨hmode, Or.inr ⟨h1, by omega, h3, h4⟩⟩
      | evaluated r =>
          simp only
          have e := countP_set_thread Thread.fired s.threads i t
            ⟨Phase.finished r, t.draw⟩ hg
          have e2 := countP_set_thread Thread.settledOff s.threads i t
            ⟨Phase.finished r, t.draw⟩ hg
          simp [Thread.fired, Thread.settledOff, hp] at e e2
          unfold NTimesInv firedCount offCount at *
          simp only at e e2 ⊢
          refine ⟨hmode, ?_⟩
          rcases hcase with ⟨h1, h2, h3, h4⟩ | ⟨h1, h2, h3, h4⟩
          · exact Or.inl ⟨h1, by omega, fun hh => ⟨by have := h3 hh; omega,
              by have := h3 hh; omega⟩, by omega⟩
          · exact Or.inr ⟨h1, by omega, h3, h4⟩
      | finished r =>
          simp only
          have e := countP_set_thread Thread.fired s.threads i t t hg
          have e2 := countP_set_thread Thread.settledOff s.threads i t t hg
          simp at e e2
          unfold NTimesInv firedCount offCount at *
          simp only at e e2 ⊢
          refine ⟨hmode, ?_⟩
          rcases hcase with ⟨h1, h2, h3, h4⟩ | ⟨h1, h2, h3, h4⟩
          · exact Or.inl ⟨h1, by omega, fun hh => ⟨by have := h3 hh; omega,
              by have := h3 hh; omega⟩, by omega⟩
          · exact Or.inr ⟨h1, by omega, h3, h4⟩

theorem NTimesInv_run (N : Nat) (s : CheckSys) (sch : List Nat)
    (h : NTimesInv N s) : NTimesInv N (s.run sch) := by
  induction sch generalizing s with
  | nil => exact h
  | cons i sch ih => exact ih (s.step i) (NTimesInv_step N s i h)

theorem NTimesInv_init (N : Nat) (draws : List Bool) :
    NTimesInv N (CheckSys.initNTimes N draws) := by
  have hfz : firedCount (CheckSys.initNTimes N draws) = 0 := by
    unfold firedCount CheckSys.initNTimes
    simp only [List.countP_map]
    rw [List.countP_eq_zero]
    intro a _
    simp [Thread.fired]
  have hoz : offCount (CheckSys.initNTimes N draws) = 0 := by
    unfold offCount CheckSys.initNTimes
    simp only [List.countP_map]
    rw [List.countP_eq_zero]
    intro a _
    simp [Thread.settledOff]
  unfold NTimesInv
  refine ⟨rfl, Or.inl ⟨rfl, ?_, ?_, ?_⟩⟩
  · rw [hfz]
    show ((Nat.cast N : Int)) = (Nat.cast N : Int) - (Nat.cast 0 : Int)
    simp
  · intro hN
    exact ⟨hoz, by rw [hfz]; omega⟩
  · intro _
    exact hfz

theorem step_threads_length (s : CheckSys) (i : Nat) :
    (s.step i).threads.length = s.threads.length := by
  unfold CheckSys.step
  cases hg : s.threads[i]? with
  | none => rfl
  | some t => exact List.length_set s.threads i _

theorem run_threads_length (s : CheckSys) (sch : List Nat) :
    (s.run sch).threads.length = s.threads.length := by
  induction sch generalizing s with
  | nil => rfl
  | cons i sch ih => exact (ih (s.step i)).trans (step_threads_length s i)

theorem fired_off_split (l : List Thread) (h : ∀ t ∈ l, t.isDone = true) :
    l.countP Thread.fired + l.countP Thread.settledOff = l.length := by
  induction l with
  | nil => rfl
  | cons a as ih =>
      have ha : a.isDone = true := h a (List.mem_cons_self a as)
      have has : ∀ t ∈ as, t.isDone = true := fun t ht => h t (List.mem_cons_of_mem a ht)
      rw [List.countP_cons, List.countP_cons, List.length_cons]
      have hsplit : (if Thread.fired a then 1 else 0) +
          (if Thread.settledOff a then 1 else 0) = 1 := by
        unfold Thread.isDone at ha
        unfold Thread.fired Thread.settledOff
        cases hp : a.phase with
        | start => rw [hp] at ha; exact absurd ha (by simp)
        | opened => rw [hp] at ha; exact absurd ha (by simp)
        | evaluated r => rw [hp] at ha; exact absurd ha (by simp)
        | finished r => cases r <;> simp
      have := ih has
      omega

/-- In any complete interleaving of `k` checks against a fresh `nTimes N`
configuration, exactly `min k N` of them fire. -/
theorem concurrent_nTimes_fires (N : Nat) (draws : List Bool) (sch : List Nat)
    (hfin : ((CheckSys.initNTimes N draws).run sch).allFinished) :
    firedCount ((CheckSys.initNTimes N draws).run sch) = min draws.length N := by
  have hinv := NTimesInv_run N _ sch (NTimesInv_init N draws)
  have hsplit := fired_off_split _ hfin
  have hlen : ((CheckSys.initNTimes N draws).run sch).threads.length = draws.length := by
    rw [run_threads_length]
    unfold CheckSys.initNTimes
    exact List.length_map draws _
  have hle : ((CheckSys.initNTimes N draws).run sch).threads.countP Thread.fired ≤
      ((CheckSys.initNTimes N draws).run sch).threads.length :=
    List.countP_le_length Thread.fired
  unfold NTimesInv at hinv
  unfold firedCount offCount at *
  rcases hinv with ⟨hmode, ⟨h1, h2, h3, h4⟩ | ⟨h1, h2, h3, h4⟩⟩
  · by_cases hN : N = 0
    · have := h4 hN
      omega
    · have := h3 (by omega)
      omega
  · omega

/-! ### Reconfiguration (setMode) small-step model -/

/-- The five atomic stages of the §4.1 `setMode` algorithm: not yet started,
flag cleared (step 1), drain observed complete (step 2), configuration written
(steps 3–4), and done (step 5 performed). -/
inductive SmPhase where
  | smStart
  | smCleared
  | smDrained
  | smWritten
  | smDone
deriving DecidableEq

/-- A system of checker threads plus one administrative thread executing
`setMode(m, v, p)`. -/
structure SetModeSys where
  fp : FpState
  threads : List Thread
  smPhase : SmPhase
deriving DecidableEq

/-- Modelled from the spec: the `setMode` thread's next atomic action (§4.1):
(1) clear the activation flag; (2) wait (re-checking) until `refCount` is
zero; (3)–(4) write `mode`, `modeValue`, `payload` under the configuration
lock; (5) set the activation flag again only if the new mode is not `off`. -/
def smStep (m : Mode) (v : Int) (p : BSONObj) (s : SetModeSys) : SetModeSys :=
  match s.smPhase with
  | SmPhase.smStart =>
      ⟨{ s.fp with activationFlag := false }, s.threads, SmPhase.smCleared⟩
  | SmPhase.smCleared =>
      if s.fp.refCount = 0 then ⟨s.fp, s.threads, SmPhase.smDrained⟩ else s
  | SmPhase.smDrained =>
      ⟨{ s.fp with mode := m, modeValue := v, payload := p },
       s.threads, SmPhase.smWritten⟩
  | SmPhase.smWritten =>
      ⟨if m = Mode.off then s.fp else { s.fp with activationFlag := true },
       s.threads, SmPhase.smDone⟩
  | SmPhase.smDone => s

/-- Scheduler action: `none` runs the `setMode` thread, `some i` runs checker
thread `i`. -/
def SetModeSys.step (m : Mode) (v : Int) (p : BSONObj) (s : SetModeSys) :
    Option Nat → SetModeSys
  | none => smStep m v p s
  | some i =>
      match s.threads[i]? with
      | none => s
      | some t =>
          ⟨(checkerStep s.fp t).1, s.threads.set i (checkerStep s.fp t).2, s.smPhase⟩

def SetModeSys.run (m : Mode) (v : Int) (p : BSONObj) (s : SetModeSys) :
    List (Option Nat) → SetModeSys
  | [] => s
  | a :: sch => ((s.step m v p a).run m v p sch)

/-- A thread holds an open, unmatched check: it is past a non-`fastOff` open
and has not yet closed. -/
def Thread.isOpen (t : Thread) : Bool :=
  match t.phase with
  | Phase.opened => true
  | Phase.evaluated _ => true
  | _ => false

def openCount (l : List Thread) : Nat := l.countP Thread.isOpen

/-- The configuration triple that `setMode` writes and the slow path reads. -/
def FpState.config (fp : FpState) : Mode × Int × BSONObj :=
  (fp.mode, fp.modeValue, fp.payload)

/-- Invariant for the drain claim: the reference count equals the number of
open, unmatched checks; once the `setMode` thread has cleared the flag it
stays clear until re-publication; and at the drained stage the count is and
remains zero. -/
def DrainInv (s : SetModeSys) : Prop :=
  s.fp.refCount = openCount s.threads ∧
  ((s.smPhase = SmPhase.smCleared ∨ s.smPhase = SmPhase.smDrained) →
     s.fp.activationFlag = false) ∧
  (s.smPhase = SmPhase.smDrained → s.fp.refCount = 0)

theorem slowEval_flag_mono (fp : FpState) (d : Bool)
    (h : fp.activationFlag = false) : (fp.slowEval d).1.activationFlag = false := by
  unfold FpState.slowEval
  cases hm : fp.mode with
  | off => exact h
  | alwaysOn => exact h
  | random => exact h
  | nTimes =>
      by_cases hv : 0 < fp.modeValue
      · rw [if_pos hv]
        show (if fp.modeValue - 1 = 0 then false else fp.activationFlag) = false
        by_cases hz : fp.modeValue - 1 = 0
        · rw [if_pos hz]
        · rw [if_neg hz]
          exact h
      · rw [if_neg hv]
        exact h
  | numModes => exact h

theorem slowEval_refCount (fp : FpState) (d : Bool) :
    (fp.slowEval d).1.refCount = fp.refCount := by
  unfold FpState.slowEval
  cases hm : fp.mode with
  | off => rfl
  | alwaysOn => rfl
  | random => rfl
  | nTimes =>
      by_cases hv : 0 < fp.modeValue
      · rw [if_pos hv]
      · rw [if_neg hv]
  | numModes => rfl

theorem DrainInv_step (m : Mode) (v : Int) (p : BSONObj) (s : SetModeSys)
    (a : Option Nat) (h : DrainInv s) : DrainInv (s.step m v p a) := by
  obtain ⟨hrc, hflag, hdr⟩ := h
  cases a with
  | none =>
      show DrainInv (smStep m v p s)
      unfold smStep
      cases hs : s.smPhase with
      | smStart =>
          exact ⟨hrc, fun _ => rfl, by simp⟩
      | smCleared =>
          by_cases hz : s.fp.refCount = 0
          · rw [if_pos hz]
            exact ⟨hrc, fun _ => hflag (Or.inl hs), fun _ => hz⟩
          · rw [if_neg hz]
            exact ⟨hrc, hflag, hdr⟩
      | smDrained =>
          exact ⟨hrc, by simp, by simp⟩
      | smWritten =>
          refine ⟨?_, by simp, by simp⟩
          by_cases hm : m = Mode.off
          · rw [if_pos hm]
            exact hrc
          · rw [if_neg hm]
            exact hrc
      | smDone => exact ⟨hrc, hflag, hdr⟩
  | some i =>
      show DrainInv (match s.threads[i]? with
        | none => s
        | some t =>
            ⟨(checkerStep s.fp t).1, s.threads.set i (checkerStep s.fp t).2, s.smPhase⟩)
      cases hg : s.threads[i]? with
      | none => exact ⟨hrc, hflag, hdr⟩
      | some t =>
          simp only
          unfold checkerStep
          cases hp : t.phase with
          | start =>
              simp only
              by_cases hf : s.fp.activationFlag = true
              · rw [if_pos hf]
                have e := countP_set_thread Thread.isOpen s.threads i t
                  ⟨Phase.opened, t.draw⟩ hg
                simp [Thread.isOpen, hp] at e
                unfold DrainInv openCount at *
                simp only at e ⊢
                refine ⟨by omega, fun hph => hflag hph, fun hph => ?_⟩
                have hfl := hflag (Or.inr hph)
                rw [hfl] at hf
                exact absurd hf (by simp)
              · rw [if_neg hf]
                have e := countP_set_thread Thread.isOpen s.threads i t
                  ⟨Phase.finished RetCode.fastOff, t.draw⟩ hg
                simp [Thread.isOpen, hp] at e
                unfold DrainInv openCount at *
                simp only at e ⊢
                exact ⟨by omega, hflag, hdr⟩
          | opened =>
              simp only
              have e := countP_set_thread Thread.isOpen s.threads i t
                ⟨Phase.evaluated (s.fp.slowEval t.draw).2, t.draw⟩ hg
              simp [Thread.isOpen, hp] at e
              unfold DrainInv openCount at *
              simp only at e ⊢
              refine ⟨?_, ?_, ?_⟩
              · rw [slowEval_refCount]
                omega
              · intro hph
                exact slowEval_flag_mono s.fp t.draw (hflag hph)
              · intro hph
                rw [slowEval_refCount]
                exact hdr hph
          | evaluated r =>
              simp only
              have e := countP_set_thread Thread.isOpen s.threads i t
                ⟨Phase.finished r, t.draw⟩ hg
              simp [Thread.isOpen, hp] at e
              have hop : 0 < s.threads.countP Thread.isOpen :=
                countP_pos_of_get Thread.isOpen s.threads i t hg
                  (by unfold Thread.isOpen; rw [hp])
              unfold DrainInv openCount at *
              simp only at e ⊢
              refine ⟨by omega, hflag, fun hph => ?_⟩
              have := hdr hph
              omega
          | finished r =>
              simp only
              have e := countP_set_thread Thread.isOpen s.threads i t t hg
              unfold DrainInv openCount at *
              simp only at e ⊢
              exact ⟨by omega, hflag, hdr⟩

theorem DrainInv_run (m : Mode) (v : Int) (p : BSONObj) (s : SetModeSys)
    (sch : List (Option Nat)) (h : DrainInv s) : DrainInv (s.run m v p sch) := by
  induction sch generalizing s with
  | nil => exact h
  | cons a sch ih => exact ih (s.step m v p a) (DrainInv_step m v p s a h)

/-- Only the drained-to-written transition of the `setMode` thread changes the
configuration, and the invariant guarantees that at that moment the reference
count is zero and the activation flag is clear. -/
theorem smStep_config_change (m : Mode) (v : Int) (p : BSONObj) (s : SetModeSys)
    (h : DrainInv s) (hch : (smStep m v p s).fp.config ≠ s.fp.config) :
    s.fp.refCount = 0 ∧ s.fp.activationFlag = false := by
  obtain ⟨hrc, hflag, hdr⟩ := h
  unfold smStep at hch
  cases hs : s.smPhase with
  | smStart =>
      rw [hs] at hch
      exact absurd rfl hch
  | smCleared =>
      rw [hs] at hch
      by_cases hz : s.fp.refCount = 0
      · rw [if_pos hz] at hch
        exact absurd rfl hch
      · rw [if_neg hz] at hch
        exact absurd rfl hch
  | smDrained =>
      exact ⟨hdr hs, hflag (Or.inr hs)⟩
  | smWritten =>
      rw [hs] at hch
      by_cases hm : m = Mode.off
      · rw [if_pos hm] at hch
        exact absurd rfl hch
      · rw [if_neg hm] at hch
        exact absurd rfl hch
  | smDone =>
      rw [hs] at hch
      exact absurd rfl hch

/-! ### The claims -/

/-- C4: when the single atomic load in `shouldFailOpenBlock` observes the
activation bit clear, the call returns `fastOff` immediately with no other
side effect: the state (state word, reference count, and mode/modeValue/
payload configuration) is completely unchanged, and `shouldFail` built on it
returns false without any close obligation. -/
theorem claim_C4_fast_path_frame :
    ∀ (fp : FailPoint) (draw : Bool), fp.fpInfo &&& ACTIVE_BIT = 0 →
      fp.shouldFailOpenBlock draw = (fp, RetCode.fastOff) ∧
      (fp.shouldFailOpenBlock draw).1 = fp ∧
      (fp.shouldFailOpenBlock draw).1.refCount = fp.refCount ∧
      (fp.shouldFailOpenBlock draw).1.mode = fp.mode ∧
      (fp.shouldFailOpenBlock draw).1.timesOrPeriod = fp.timesOrPeriod ∧
      (fp.shouldFailOpenBlock draw).1.data = fp.data ∧
      fp.shouldFail draw = (fp, false) := by
  intro fp draw h
  have ho := open_eq_of_inactive fp draw h
  refine ⟨ho, by rw [ho], by rw [ho], by rw [ho], by rw [ho], by rw [ho],
    shouldFail_eq_of_inactive fp draw h⟩

theorem claim_C4_witness :
    FailPoint.init.shouldFailOpenBlock true = (FailPoint.init, RetCode.fastOff) ∧
    FailPoint.init.shouldFail true = (FailPoint.init, false) :=
  ⟨(claim_C4_fast_path_frame FailPoint.init true (by decide)).1,
   (claim_C4_fast_path_frame FailPoint.init true (by decide)).2.2.2.2.2.2⟩

/-- C7: a freshly default-constructed FailPoint is in the `off` mode with
`refCount == 0`, every check on it (`shouldFail`, `shouldFailOpenBlock`, a
`ScopedFailPoint`'s `isActive`, or any sequence of checks) reports false /
`fastOff` and leaves it unchanged, and a `setMode` makes it active exactly
when the new mode is not `off`. -/
theorem claim_C7_fresh_is_off :
    FailPoint.init.mode = Mode.off ∧
    FailPoint.init.refCount = 0 ∧
    FailPoint.init.fpInfo &&& ACTIVE_BIT = 0 ∧
    (∀ draw, FailPoint.init.shouldFail draw = (FailPoint.init, false)) ∧
    (∀ draw, FailPoint.init.shouldFailOpenBlock draw = (FailPoint.init, RetCode.fastOff)) ∧
    (∀ draw, ((ScopedFailPoint.init FailPoint.init).isActive draw).2 = false) ∧
    (∀ draws, FailPoint.init.runChecks draws =
        (FailPoint.init, List.replicate draws.length false)) ∧
    (∀ m v p fp', FailPoint.init.setMode m v p = some fp' →
        (fp'.fpInfo &&& ACTIVE_BIT ≠ 0 ↔ m ≠ Mode.off)) := by
  refine ⟨rfl, by decide, by decide, ?_, ?_, ?_, ?_, ?_⟩
  · intro draw
    exact shouldFail_eq_of_inactive FailPoint.init draw (by decide)
  · intro draw
    exact open_eq_of_inactive FailPoint.init draw (by decide)
  · intro draw
    rw [isActive_init]
    show decide ((FailPoint.init.shouldFailOpenBlock draw).2 = RetCode.slowOn) = false
    rw [open_eq_of_inactive FailPoint.init draw (by decide)]
    rfl
  · intro draws
    exact runChecks_of_inactive FailPoint.init draws (by decide)
  · intro m v p fp' h
    have h2 := (setMode_eq_some _ m v p fp' h).2
    subst h2
    by_cases hm : m = Mode.off
    · rw [if_pos hm]
      subst hm
      simp
    · rw [if_neg hm]
      exact iff_of_true (by show ACTIVE_BIT &&& ACTIVE_BIT ≠ 0; decide) hm

theorem claim_C7_witness :
    FailPoint.init.shouldFail false = (FailPoint.init, false) ∧
    FailPoint.init.runChecks [true, false, true] =
      (FailPoint.init, [false, false, false]) :=
  ⟨claim_C7_fresh_is_off.2.2.2.1 false,
   claim_C7_fresh_is_off.2.2.2.2.2.2.1 [true, false, true]⟩

/-- C5: `shouldFail` performs an open check; whenever that open did not return
`fastOff` it performs exactly one matching close before returning; it returns
true if and only if the open returned `slowOn`; and its net effect on the
reference count is zero. -/
theorem claim_C5_shouldFail_balanced :
    ∀ (fp : FailPoint) (draw : Bool),
      ((fp.shouldFailOpenBlock draw).2 = RetCode.fastOff →
         fp.shouldFail draw = ((fp.shouldFailOpenBlock draw).1, false)) ∧
      ((fp.shouldFailOpenBlock draw).2 ≠ RetCode.fastOff →
         fp.shouldFail draw =
           ((fp.shouldFailOpenBlock draw).1.shouldFailCloseBlock,
            decide ((fp.shouldFailOpenBlock draw).2 = RetCode.slowOn))) ∧
      ((fp.shouldFail draw).2 = true ↔ (fp.shouldFailOpenBlock draw).2 = RetCode.slowOn) ∧
      (fp.shouldFail draw).1.refCount = fp.refCount := by
  intro fp draw
  refine ⟨?_, ?_, ?_, shouldFail_refCount fp draw⟩
  · intro h
    unfold FailPoint.shouldFail
    rw [if_pos h]
  · intro h
    unfold FailPoint.shouldFail
    rw [if_neg h]
  · by_cases h : (fp.shouldFailOpenBlock draw).2 = RetCode.fastOff
    · have : fp.shouldFail draw = ((fp.shouldFailOpenBlock draw).1, false) := by
        unfold FailPoint.shouldFail
        rw [if_pos h]
      rw [this, h]
      simp
    · have : fp.shouldFail draw =
          ((fp.shouldFailOpenBlock draw).1.shouldFailCloseBlock,
           decide ((fp.shouldFailOpenBlock draw).2 = RetCode.slowOn)) := by
        unfold FailPoint.shouldFail
        rw [if_neg h]
      rw [this]
      simp

theorem claim_C5_witness :
    ((FailPoint.mk ACTIVE_BIT Mode.alwaysOn 0 BSONObj.empty).shouldFail true).1.refCount =
      (FailPoint.mk ACTIVE_BIT Mode.alwaysOn 0 BSONObj.empty).refCount ∧
    (FailPoint.mk ACTIVE_BIT Mode.alwaysOn 0 BSONObj.empty).shouldFail true =
      (((FailPoint.mk ACTIVE_BIT Mode.alwaysOn 0 BSONObj.empty).shouldFailOpenBlock
          true).1.shouldFailCloseBlock,
       decide (((FailPoint.mk ACTIVE_BIT Mode.alwaysOn 0 BSONObj.empty).shouldFailOpenBlock
          true).2 = RetCode.slowOn)) :=
  ⟨(claim_C5_shouldFail_balanced (FailPoint.mk ACTIVE_BIT Mode.alwaysOn 0 BSONObj.empty)
      true).2.2.2,
   (claim_C5_shouldFail_balanced (FailPoint.mk ACTIVE_BIT Mode.alwaysOn 0 BSONObj.empty)
      true).2.1 (by decide)⟩

/-- C10: a true result from `shouldFail` does not establish the precondition of
`getData`: in the non-`fastOff` case `shouldFail` invokes the close before
returning, so at the moment it returns the reference count is back to its
value before the call; moreover there is a state (an `nTimes 1` fail point) in
which `shouldFail` returns true yet the fail point is already inactive when it
returns, so "known active" cannot be concluded.  The payload is safely
readable between a non-`fastOff` open and its matching close, where the data
field is exactly preserved. -/
theorem claim_C10_shouldFail_true_not_known_active :
    (∀ (fp : FailPoint) (draw : Bool),
       (fp.shouldFailOpenBlock draw).2 ≠ RetCode.fastOff →
         fp.shouldFail draw =
           ((fp.shouldFailOpenBlock draw).1.shouldFailCloseBlock,
            decide ((fp.shouldFailOpenBlock draw).2 = RetCode.slowOn))) ∧
    (∀ (fp : FailPoint) (draw : Bool), (fp.shouldFail draw).1.refCount = fp.refCount) ∧
    (∀ (fp : FailPoint) (draw : Bool),
       (fp.shouldFailOpenBlock draw).2 ≠ RetCode.fastOff →
         (fp.shouldFailOpenBlock draw).1.getData = fp.getData) ∧
    ((FailPoint.mk ACTIVE_BIT Mode.nTimes 1 BSONObj.empty).shouldFail true).2 = true ∧
    ((FailPoint.mk ACTIVE_BIT Mode.nTimes 1 BSONObj.empty).shouldFail
        true).1.fpInfo &&& ACTIVE_BIT = 0 := by
  refine ⟨?_, shouldFail_refCount, ?_, by decide, by decide⟩
  · intro fp draw h
    unfold FailPoint.shouldFail
    rw [if_neg h]
  · intro fp draw h
    have hb := open_ne_fastOff_active fp draw h
    rw [open_eq_of_active fp draw hb]
    exact slow_data fp draw

theorem claim_C10_witness :
    (FailPoint.mk ACTIVE_BIT Mode.nTimes 1 BSONObj.empty).shouldFail true =
      (((FailPoint.mk ACTIVE_BIT Mode.nTimes 1 BSONObj.empty).shouldFailOpenBlock
          true).1.shouldFailCloseBlock,
       decide (((FailPoint.mk ACTIVE_BIT Mode.nTimes 1 BSONObj.empty).shouldFailOpenBlock
          true).2 = RetCode.slowOn)) ∧
    ((FailPoint.mk ACTIVE_BIT Mode.nTimes 1 BSONObj.empty).shouldFailOpenBlock
        true).1.getData = (FailPoint.mk ACTIVE_BIT Mode.nTimes 1 BSONObj.empty).getData :=
  ⟨claim_C10_shouldFail_true_not_known_active.1
      (FailPoint.mk ACTIVE_BIT Mode.nTimes 1 BSONObj.empty) true (by decide),
   claim_C10_shouldFail_true_not_known_active.2.2.1
      (FailPoint.mk ACTIVE_BIT Mode.nTimes 1 BSONObj.empty) true (by decide)⟩

/-- C8: under the precondition that `setMode` succeeded (which in this model
requires the drain to have completed, i.e. the caller-visible precondition
that the fail point is reconfigurable, and in particular holds in any state a
non-`fastOff` open can observe), `getData` returns exactly the payload
supplied to the most recent successful `setMode` (the empty document when none
was supplied), and no sequence of intervening check operations changes it. -/
theorem claim_C8_getData_is_last_payload :
    (∀ (fp : FailPoint) (m : Mode) (v : Int) (p : BSONObj) (fp' : FailPoint),
       fp.setMode m v p = some fp' →
         fp'.getData = p ∧
         (∀ draws, ((fp'.runChecks draws).1).getData = p) ∧
         (∀ draw, ((fp'.shouldFailOpenBlock draw).1).getData = p)) ∧
    (∀ (fp : FailPoint) (m : Mode) (v : Int) (fp' : FailPoint),
       fp.setMode m v = some fp' → fp'.getData = BSONObj.empty) := by
  constructor
  · intro fp m v p fp' h
    have hd : fp'.data = p := setMode_data fp m v p fp' h
    refine ⟨hd, ?_, ?_⟩
    · intro draws
      show (fp'.runChecks draws).1.data = p
      rw [runChecks_data]
      exact hd
    · intro draw
      show (fp'.shouldFailOpenBlock draw).1.data = p
      by_cases hb : fp'.fpInfo &&& ACTIVE_BIT = 0
      · rw [open_eq_of_inactive fp' draw hb]
        exact hd
      · rw [open_eq_of_active fp' draw hb]
        rw [slow_data]
        exact hd
  · intro fp m v fp' h
    exact setMode_data fp m v BSONObj.empty fp' h

theorem claim_C8_witness :
    (FailPoint.mk ACTIVE_BIT Mode.alwaysOn 0 [("k", 7)]).getData = [("k", 7)] ∧
    ((FailPoint.mk ACTIVE_BIT Mode.alwaysOn 0 [("k", 7)]).runChecks
        [true, true]).1.getData = [("k", 7)] :=
  ⟨(claim_C8_getData_is_last_payload.1 FailPoint.init Mode.alwaysOn 0 [("k", 7)]
      (FailPoint.mk ACTIVE_BIT Mode.alwaysOn 0 [("k", 7)]) (by decide)).1,
   (claim_C8_getData_is_last_payload.1 FailPoint.init Mode.alwaysOn 0 [("k", 7)]
      (FailPoint.mk ACTIVE_BIT Mode.alwaysOn 0 [("k", 7)]) (by decide)).2.1 [true, true]⟩

/-- C9: the state word packs the activation flag into bit 31
(`ACTIVE_BIT = 1 << 31`) and the reference count into bits 0–30
(`REF_COUNTER_MASK = ~ACTIVE_BIT`, i.e. `2^31 - 1` at 32-bit width), so the
count can only take values below `2^31`; when fewer than `2^31 - 1` checks are
open, the open's increment changes only the low 31 bits and leaves bit 31
untouched, and symmetrically for the close's decrement when the count is
positive; the slow path touches the word only by that increment (possibly
followed by clearing bit 31 on `nTimes` exhaustion); and the fast-path test
reads exactly bit 31. -/
theorem claim_C9_bit_layout :
    ACTIVE_BIT = 2 ^ 31 ∧
    REF_COUNTER_MASK = 2 ^ 31 - 1 ∧
    (∀ fp : FailPoint, fp.refCount < 2 ^ 31) ∧
    (∀ x : Nat, x &&& REF_COUNTER_MASK < 2 ^ 31 - 1 →
       ((x + 1) % 2 ^ 32) &&& ACTIVE_BIT = x &&& ACTIVE_BIT ∧
       ((x + 1) % 2 ^ 32) &&& REF_COUNTER_MASK = (x &&& REF_COUNTER_MASK) + 1) ∧
    (∀ fp : FailPoint, 0 < fp.refCount →
       fp.shouldFailCloseBlock.refCount = fp.refCount - 1 ∧
       fp.shouldFailCloseBlock.fpInfo &&& ACTIVE_BIT = fp.fpInfo &&& ACTIVE_BIT) ∧
    (∀ (fp : FailPoint) (draw : Bool),
       (fp.slowShouldFailOpenBlock draw).1.fpInfo = (fp.fpInfo + 1) % 2 ^ 32 ∨
       (fp.slowShouldFailOpenBlock draw).1.fpInfo =
         ((fp.fpInfo + 1) % 2 ^ 32) &&& REF_COUNTER_MASK) ∧
    (∀ (fp : FailPoint) (draw : Bool),
       (fp.shouldFailOpenBlock draw).2 = RetCode.fastOff ↔
         fp.fpInfo.testBit 31 = false) := by
  refine ⟨ACTIVE_BIT_eq, REF_COUNTER_MASK_eq, ?_, ?_, ?_, slow_fpInfo_cases, ?_⟩
  · intro fp
    rw [refCount_eq_mod]
    omega
  · intro x h
    rw [land_mask] at h
    constructor
    · rw [land_active, land_active]
      omega
    · rw [land_mask, land_mask]
      omega
  · intro fp h
    rw [refCount_eq_mod] at h
    constructor
    · rw [close_refCount, refCount_eq_mod]
      omega
    · have hcf : fp.shouldFailCloseBlock.fpInfo = (fp.fpInfo + (2 ^ 32 - 1)) % 2 ^ 32 := by
        unfold FailPoint.shouldFailCloseBlock
        rfl
      rw [hcf, land_active, land_active]
      omega
  · intro fp draw
    have ht : fp.fpInfo.testBit 31 = decide (fp.fpInfo / 2 ^ 31 % 2 = 1) :=
      Nat.testBit_to_div_mod
    by_cases hb : fp.fpInfo &&& ACTIVE_BIT = 0
    · rw [open_eq_of_inactive fp draw hb]
      have h0 : fp.fpInfo / 2 ^ 31 % 2 = 0 := (land_active_eq_zero_iff _).1 hb
      refine iff_of_true rfl ?_
      rw [ht, h0]
      rfl
    · rw [open_eq_of_active fp draw hb]
      have h1 : fp.fpInfo / 2 ^ 31 % 2 = 1 := by
        rw [land_active] at hb
        omega
      refine iff_of_false (slow_ne_fastOff fp draw) ?_
      rw [ht, h1]
      simp

theorem claim_C9_witness :
    FailPoint.init.refCount < 2 ^ 31 ∧
    ((ACTIVE_BIT + 1) % 2 ^ 32) &&& ACTIVE_BIT = ACTIVE_BIT &&& ACTIVE_BIT ∧
    (FailPoint.mk (ACTIVE_BIT + 1) Mode.alwaysOn 0 BSONObj.empty).shouldFailCloseBlock.refCount =
      (FailPoint.mk (ACTIVE_BIT + 1) Mode.alwaysOn 0 BSONObj.empty).refCount - 1 ∧
    (((FailPoint.mk ACTIVE_BIT Mode.alwaysOn 0 BSONObj.empty).shouldFailOpenBlock true).2 =
        RetCode.fastOff ↔ (FailPoint.mk ACTIVE_BIT Mode.alwaysOn 0
        BSONObj.empty).fpInfo.testBit 31 = false) :=
  ⟨claim_C9_bit_layout.2.2.1 FailPoint.init,
   (claim_C9_bit_layout.2.2.2.1 ACTIVE_BIT (by decide)).1,
   (claim_C9_bit_layout.2.2.2.2.1
      (FailPoint.mk (ACTIVE_BIT + 1) Mode.alwaysOn 0 BSONObj.empty) (by decide)).1,
   claim_C9_bit_layout.2.2.2.2.2.2
      (FailPoint.mk ACTIVE_BIT Mode.alwaysOn 0 BSONObj.empty) true⟩

/-- C3: for every `ScopedFailPoint` instance, `isActive` returns true at most
once across the instance's lifetime: only the first call performs the open
check and may return true (it returns exactly whether the open fired); every
subsequent call on the same instance returns false unconditionally, so across
any sequence of calls the results after the first are all false and at most
one call returns true. -/
theorem claim_C3_isActive_at_most_once :
    ∀ (fp : FailPoint) (draws : List Bool),
      (((ScopedFailPoint.init fp).runIsActive draws).2.drop 1 =
         List.replicate (draws.length - 1) false) ∧
      (((ScopedFailPoint.init fp).runIsActive draws).2.count true ≤ 1) ∧
      (∀ (s : ScopedFailPoint) (d : Bool), s.once = true → s.isActive d = (s, false)) ∧
      (∀ d, ((ScopedFailPoint.init fp).isActive d).2 =
         decide ((fp.shouldFailOpenBlock d).2 = RetCode.slowOn)) := by
  intro fp draws
  refine ⟨?_, ?_, isActive_of_once, ?_⟩
  · cases draws with
    | nil => rfl
    | cons d rest =>
        rw [runIsActive_init_cons]
        simp
  · cases draws with
    | nil => simp [ScopedFailPoint.runIsActive]
    | cons d rest =>
        rw [runIsActive_init_cons]
        simp only [List.count_cons, List.count_replicate]
        by_cases hb : decide ((fp.shouldFailOpenBlock d).2 = RetCode.slowOn) = true <;>
          simp [hb]
  · intro d
    rw [isActive_init]

theorem claim_C3_witness :
    (((ScopedFailPoint.init (FailPoint.mk ACTIVE_BIT Mode.alwaysOn 0
        BSONObj.empty)).runIsActive [true, true, false]).2.count true ≤ 1) ∧
    ((⟨FailPoint.init, true, false⟩ : ScopedFailPoint).isActive true =
      ((⟨FailPoint.init, true, false⟩ : ScopedFailPoint), false)) :=
  ⟨(claim_C3_isActive_at_most_once (FailPoint.mk ACTIVE_BIT Mode.alwaysOn 0 BSONObj.empty)
      [true, true, false]).2.1,
   (claim_C3_isActive_at_most_once FailPoint.init []).2.2.1
      (⟨FailPoint.init, true, false⟩ : ScopedFailPoint) true (by decide)⟩

/-- C6: on destruction of a `ScopedFailPoint`, the close operation is invoked
exactly once if and only if a close is owed — the single open call was made
and did not return `fastOff`; otherwise no close is invoked; consequently a
complete guard lifetime (construction, any number of `isActive` calls,
destruction) leaves the reference count unchanged. -/
theorem claim_C6_destructor_balances :
    ∀ (fp : FailPoint) (draws : List Bool),
      (draws = [] →
         ((ScopedFailPoint.init fp).runIsActive draws).1.shouldClose = false ∧
         ((ScopedFailPoint.init fp).runIsActive draws).1.destruct = fp) ∧
      (∀ d rest, draws = d :: rest →
         (((ScopedFailPoint.init fp).runIsActive draws).1.shouldClose = true ↔
            (fp.shouldFailOpenBlock d).2 ≠ RetCode.fastOff)) ∧
      (((ScopedFailPoint.init fp).runIsActive draws).1.shouldClose = true →
         ((ScopedFailPoint.init fp).runIsActive draws).1.destruct =
           ((ScopedFailPoint.init fp).runIsActive draws).1.failPoint.shouldFailCloseBlock) ∧
      (((ScopedFailPoint.init fp).runIsActive draws).1.shouldClose = false →
         ((ScopedFailPoint.init fp).runIsActive draws).1.destruct =
           ((ScopedFailPoint.init fp).runIsActive draws).1.failPoint) ∧
      ((ScopedFailPoint.init fp).runIsActive draws).1.destruct.refCount = fp.refCount := by
  intro fp draws
  refine ⟨?_, ?_, ?_, ?_, ?_⟩
  · intro h
    subst h
    exact ⟨rfl, rfl⟩
  · intro d rest h
    subst h
    rw [runIsActive_init_cons]
    show decide ((fp.shouldFailOpenBlock d).2 ≠ RetCode.fastOff) = true ↔
      (fp.shouldFailOpenBlock d).2 ≠ RetCode.fastOff
    simp
  · intro h
    unfold ScopedFailPoint.destruct
    rw [if_pos h]
  · intro h
    unfold ScopedFailPoint.destruct
    rw [if_neg (by rw [h]; simp)]
  · cases draws with
    | nil => rfl
    | cons d rest =>
        rw [runIsActive_init_cons]
        show (ScopedFailPoint.destruct
          ⟨(fp.shouldFailOpenBlock d).1, true,
           decide ((fp.shouldFailOpenBlock d).2 ≠ RetCode.fastOff)⟩).refCount = fp.refCount
        unfold ScopedFailPoint.destruct
        by_cases ho : (fp.shouldFailOpenBlock d).2 = RetCode.fastOff
        · rw [if_neg (by simp [ho])]
          show (fp.shouldFailOpenBlock d).1.refCount = fp.refCount
          rw [open_fastOff_state fp d ho]
        · rw [if_pos (by simp [ho])]
          show (fp.shouldFailOpenBlock d).1.shouldFailCloseBlock.refCount = fp.refCount
          have hb := open_ne_fastOff_active fp d ho
          rw [open_eq_of_active fp d hb]
          exact slow_then_close_refCount fp d

theorem claim_C6_witness :
    ((ScopedFailPoint.init (FailPoint.mk ACTIVE_BIT Mode.alwaysOn 0
        BSONObj.empty)).runIsActive [true]).1.destruct.refCount =
      (FailPoint.mk ACTIVE_BIT Mode.alwaysOn 0 BSONObj.empty).refCount ∧
    (((ScopedFailPoint.init (FailPoint.mk ACTIVE_BIT Mode.alwaysOn 0
        BSONObj.empty)).runIsActive [true]).1.shouldClose = true ↔
      ((FailPoint.mk ACTIVE_BIT Mode.alwaysOn 0
        BSONObj.empty).shouldFailOpenBlock true).2 ≠ RetCode.fastOff) :=
  ⟨(claim_C6_destructor_balances (FailPoint.mk ACTIVE_BIT Mode.alwaysOn 0 BSONObj.empty)
      [true]).2.2.2.2,
   (claim_C6_destructor_balances (FailPoint.mk ACTIVE_BIT Mode.alwaysOn 0 BSONObj.empty)
      [true]).2.1 true [] rfl⟩

/-- C2: after `setMode(nTimes, N)` (N ≥ 0) and before any further
reconfiguration, exactly `min k N` of `k` subsequent checks fire — in any
interleaving of any number of threads (so exactly `N` whenever at least `N`
checks run); each firing slow-path evaluation atomically decrements the
countdown and, when the decrement exhausts it, clears the activation flag in
the same evaluation; and in the sequential model the first `min k N` checks
return true and the `(N+1)`-th and all later checks return false. -/
theorem claim_C2_nTimes_exactly_N :
    (∀ (N : Nat) (draws : List Bool) (sch : List Nat),
       ((CheckSys.initNTimes N draws).run sch).allFinished →
         firedCount ((CheckSys.initNTimes N draws).run sch) = min draws.length N) ∧
    (∀ (N : Nat) (fp' : FailPoint),
       FailPoint.init.setMode Mode.nTimes (N : Int) = some fp' →
         ∀ draws : List Bool,
           (fp'.runChecks draws).2 =
             List.replicate (min draws.length N) true ++
               List.replicate (draws.length - N) false) ∧
    (∀ (fp : FailPoint) (draw : Bool), fp.mode = Mode.nTimes →
       0 < fp.timesOrPeriod →
         (fp.slowShouldFailOpenBlock draw).2 = RetCode.slowOn ∧
         (fp.slowShouldFailOpenBlock draw).1.timesOrPeriod = fp.timesOrPeriod - 1 ∧
         (fp.timesOrPeriod = 1 →
            (fp.slowShouldFailOpenBlock draw).1.fpInfo &&& ACTIVE_BIT = 0)) := by
  refine ⟨concurrent_nTimes_fires, ?_, ?_⟩
  · intro N fp' h draws
    have h2 := (setMode_eq_some _ Mode.nTimes (N : Int) BSONObj.empty fp' h).2
    have h3 : (if Mode.nTimes = Mode.off then 0 else ACTIVE_BIT) = ACTIVE_BIT := by decide
    rw [h3] at h2
    subst h2
    exact runChecks_nTimes N draws
  · intro fp draw hm hv
    by_cases h1 : fp.timesOrPeriod = 1
    · rw [slow_eq_nTimes_last fp draw hm h1]
      refine ⟨rfl, by show (0 : Int) = fp.timesOrPeriod - 1; omega, fun _ => ?_⟩
      show ((fp.fpInfo + 1) % 2 ^ 32 &&& REF_COUNTER_MASK) &&& ACTIVE_BIT = 0
      rw [land_mask, land_active]
      omega
    · rw [slow_eq_nTimes_more fp draw hm (by omega)]
      exact ⟨rfl, rfl, fun hc => absurd hc h1⟩

theorem claim_C2_witness :
    firedCount ((CheckSys.initNTimes 1 [true, false]).run [0, 0, 0, 1, 1, 1]) =
      min 2 1 ∧
    ((FailPoint.mk ACTIVE_BIT Mode.nTimes ((1 : Nat) : Int) BSONObj.empty).runChecks
        [true, false]).2 = List.replicate (min 2 1) true ++ List.replicate (2 - 1) false ∧
    ((FailPoint.mk ACTIVE_BIT Mode.nTimes 1 BSONObj.empty).slowShouldFailOpenBlock
        true).2 = RetCode.slowOn :=
  ⟨claim_C2_nTimes_exactly_N.1 1 [true, false] [0, 0, 0, 1, 1, 1] (by decide),
   claim_C2_nTimes_exactly_N.2.1 1
      (FailPoint.mk ACTIVE_BIT Mode.nTimes ((1 : Nat) : Int) BSONObj.empty)
      (by decide) [true, false],
   (claim_C2_nTimes_exactly_N.2.2 (FailPoint.mk ACTIVE_BIT Mode.nTimes 1 BSONObj.empty)
      true rfl (by decide)).1⟩

/-- C1: `setMode(mode, value, payload)` follows the drain-then-reconfigure
order — it first clears the activation flag, then waits until the reference
count reaches zero, then writes `mode`/`modeValue`/`payload`, and sets the
activation flag again only if the new mode is not `off` — and consequently,
in every interleaving with any number of checker threads (some possibly
already holding open checks), any `setMode` action that changes the
configuration happens in a state whose reference count is zero and whose
activation flag is clear: it never mutates the configuration while any call
site holds an open, unmatched check. -/
theorem claim_C1_setMode_drains_before_write :
    ∀ (m : Mode) (v : Int) (p : BSONObj),
      (∀ (fp0 : FpState) (ts0 : List Thread),
         fp0.refCount = openCount ts0 →
         ∀ sch : List (Option Nat),
           (smStep m v p (SetModeSys.run m v p ⟨fp0, ts0, SmPhase.smStart⟩ sch)).fp.config ≠
               (SetModeSys.run m v p ⟨fp0, ts0, SmPhase.smStart⟩ sch).fp.config →
             (SetModeSys.run m v p ⟨fp0, ts0, SmPhase.smStart⟩ sch).fp.refCount = 0 ∧
             (SetModeSys.run m v p ⟨fp0, ts0, SmPhase.smStart⟩ sch).fp.activationFlag
               = false) ∧
      (∀ s : SetModeSys, s.smPhase = SmPhase.smStart →
         smStep m v p s =
           ⟨{ s.fp with activationFlag := false }, s.threads, SmPhase.smCleared⟩) ∧
      (∀ s : SetModeSys, s.smPhase = SmPhase.smCleared → s.fp.refCount ≠ 0 →
         smStep m v p s = s) ∧
      (∀ s : SetModeSys, s.smPhase = SmPhase.smCleared → s.fp.refCount = 0 →
         smStep m v p s = ⟨s.fp, s.threads, SmPhase.smDrained⟩) ∧
      (∀ s : SetModeSys, s.smPhase = SmPhase.smDrained →
         smStep m v p s =
           ⟨{ s.fp with mode := m, modeValue := v, payload := p },
            s.threads, SmPhase.smWritten⟩) ∧
      (∀ s : SetModeSys, s.smPhase = SmPhase.smWritten → m = Mode.off →
         (smStep m v p s).fp = s.fp) ∧
      (∀ s : SetModeSys, s.smPhase = SmPhase.smWritten → m ≠ Mode.off →
         (smStep m v p s).fp = { s.fp with activationFlag := true }) := by
  intro m v p
  refine ⟨?_, ?_, ?_, ?_, ?_, ?_, ?_⟩
  · intro fp0 ts0 h0 sch hch
    have hinv0 : DrainInv ⟨fp0, ts0, SmPhase.smStart⟩ := by
      refine ⟨h0, ?_, ?_⟩
      · intro hor
        rcases hor with hph | hph <;> exact absurd hph (by simp)
      · intro hph
        exact absurd hph (by simp)
    have hinv := DrainInv_run m v p _ sch hinv0
    exact smStep_config_change m v p _ hinv hch
  · intro s hs
    unfold smStep
    rw [hs]
  · intro s hs hz
    unfold smStep
    rw [hs]
    rw [if_neg hz]
  · intro s hs hz
    unfold smStep
    rw [hs]
    rw [if_pos hz]
  · intro s hs
    unfold smStep
    rw [hs]
  · intro s hs hm
    unfold smStep
    rw [hs]
    rw [if_pos hm]
  · intro s hs hm
    unfold smStep
    rw [hs]
    rw [if_neg hm]

theorem claim_C1_witness :
    (SetModeSys.run Mode.alwaysOn 0 BSONObj.empty
        ⟨FpState.afterSetMode Mode.nTimes 1 BSONObj.empty, [], SmPhase.smStart⟩
        [none, none]).fp.refCount = 0 ∧
    (SetModeSys.run Mode.alwaysOn 0 BSONObj.empty
        ⟨FpState.afterSetMode Mode.nTimes 1 BSONObj.empty, [], SmPhase.smStart⟩
        [none, none]).fp.activationFlag = false :=
  (claim_C1_setMode_drains_before_write Mode.alwaysOn 0 BSONObj.empty).1
    (FpState.afterSetMode Mode.nTimes 1 BSONObj.empty) [] (by decide)
    [none, none] (by decide)
